import Mathlib

/-!
# Verification of the runsit task-supervision core

A shallow embedding of the supervision engine of `runsit.go`
(`danga.com/runsit`): the system log ring buffer (`logBuffer`), the
bounded per-instance output buffer (`TaskOutput`), and the per-task
control-loop state machine (`Task.loop` handling update / stop /
wait messages, with the spawn procedure `Task.updateFromConfig`).

External effects (the jsonconfig parser, the OS calls used while
spawning: `net.Listen`, `TCPListener.File`, `os.Stat`, pipe creation and
`cmd.Start`) are represented by oracle fields recording each call's
outcome, so the control flow of the Go source can be followed exactly.
-/

namespace Runsit

/-! ## List helpers (suffix of fixed capacity) -/

/-- The last `n` elements of a list (the whole list when it is shorter). -/
def lastN (n : Nat) (l : List α) : List α := l.drop (l.length - n)

theorem lastN_of_le {n : Nat} {l : List α} (h : l.length ≤ n) : lastN n l = l := by
  simp [lastN, Nat.sub_eq_zero_of_le h]

theorem lastN_length (n : Nat) (l : List α) : (lastN n l).length = min n l.length := by
  simp [lastN]
  omega

theorem lastN_length_le (n : Nat) (l : List α) : (lastN n l).length ≤ n := by
  rw [lastN_length]; omega

theorem lastN_append_right (n : Nat) (b l : List α) :
    lastN n (lastN n b ++ l) = lastN n (b ++ l) := by
  unfold lastN
  rcases le_or_lt b.length n with h | h
  · rw [Nat.sub_eq_zero_of_le h, List.drop_zero]
  · have hd : b.drop (b.length - n) ++ l = (b ++ l).drop (b.length - n) := by
      rw [List.drop_append_of_le_length (by omega)]
    rw [hd, List.drop_drop, List.length_drop, List.length_append]
    congr 1
    omega

theorem lastN_snoc_of_lt {n : Nat} {l : List α} (x : α) (h : l.length < n) :
    lastN n (l ++ [x]) = l ++ [x] := by
  apply lastN_of_le
  simp
  omega

theorem lastN_snoc_of_ge {n : Nat} {l : List α} (x : α) (hn : 0 < n) (h : n ≤ l.length) :
    lastN n (l ++ [x]) = (lastN n l).drop 1 ++ [x] := by
  unfold lastN
  rw [List.drop_drop, List.length_append]
  simp only [List.length_cons, List.length_nil]
  rw [List.drop_append_of_le_length (by omega)]
  congr 2
  omega

/-- Generic fold fact: any bounded-append operation that keeps the last `c`
elements folds to the last `c` elements of the whole stream. -/
theorem foldl_lastN {c : Nat} {f : List α → α → List α}
    (hf : ∀ b x, b.length ≤ c → f b x = lastN c (b ++ [x])) :
    ∀ (l b : List α), b.length ≤ c → List.foldl f b l = lastN c (b ++ l)
  | [], b, hb => by simp [lastN_of_le hb]
  | x :: l, b, hb => by
    rw [List.foldl_cons, foldl_lastN hf l (f b x) (by rw [hf b x hb]; exact lastN_length_le c _),
      hf b x hb, lastN_append_right]
    simp

/-! ## The system log ring buffer (`logBuffer`, runsit.go lines 55-93)

`const systemLogSize = 64 << 10`; the buffer is a 64 KiB byte array with a
write index `i` and a `full` flag, set once the index wraps.  The Go
`Write` copies the payload chunkwise into `buf[i:]`, wrapping `i` to zero
(and setting `full`) whenever it reaches the end of the array; this stores
the same bytes at the same indices as a byte-at-a-time loop, which is how
we express it here. -/

def systemLogSize : Nat := 64 <<< 10

structure LogBuffer where
  i : Nat
  full : Bool
  buf : Nat → UInt8

/-- The zero value of `logBuffer`: index 0, not full, zeroed array. -/
def LogBuffer.empty : LogBuffer := ⟨0, false, fun _ => 0⟩

/-- Store one byte at the write index, advancing and wrapping it
(`b.i += n; if b.i == len(b.buf) { b.i = 0; b.full = true }`). -/
def LogBuffer.writeByte (b : LogBuffer) (c : UInt8) : LogBuffer :=
  if b.i + 1 = systemLogSize then ⟨0, true, fun k => if k = b.i then c else b.buf k⟩
  else ⟨b.i + 1, b.full, fun k => if k = b.i then c else b.buf k⟩

/-- `logBuffer.Write`: store every byte of `p` in order. -/
def LogBuffer.write (b : LogBuffer) (p : List UInt8) : LogBuffer :=
  p.foldl LogBuffer.writeByte b

/-- The slice `buf[a : a+n]` as a list. -/
def readRange (f : Nat → UInt8) (a n : Nat) : List UInt8 :=
  match n with
  | 0 => []
  | n + 1 => f a :: readRange f (a + 1) n

/-- Index of the first newline byte, as `strings.Index(s, "\n")` computes it. -/
def idxOfNl : List UInt8 → Option Nat
  | [] => none
  | c :: rest => if c = 10 then some 0 else (idxOfNl rest).map (· + 1)

/-- `s = s[nl+1:]` when a newline is present: remove the first (probably
truncated) line, up to and including its newline. -/
def dropFirstLine (s : List UInt8) : List UInt8 :=
  match idxOfNl s with
  | some nl => s.drop (nl + 1)
  | none => s

/-- The bytes of `"...\n"`, the ellipsis marker prepended by `String`. -/
def ellipsisNl : List UInt8 := [46, 46, 46, 10]

/-- `logBuffer.String`: the unwrapped prefix when not yet full; otherwise the
two halves in chronological order with the first line removed and the
ellipsis marker prefixed. -/
def LogBuffer.string (b : LogBuffer) : List UInt8 :=
  if b.full = true then
    ellipsisNl ++ dropFirstLine
      (readRange b.buf b.i (systemLogSize - b.i) ++ readRange b.buf 0 b.i)
  else readRange b.buf 0 b.i

/-- The retained bytes in chronological (write) order: `buf[i:] + buf[:i]`
once wrapped, `buf[:i]` before that. -/
def LogBuffer.chrono (b : LogBuffer) : List UInt8 :=
  if b.full = true then
    readRange b.buf b.i (systemLogSize - b.i) ++ readRange b.buf 0 b.i
  else readRange b.buf 0 b.i

theorem readRange_length (f : Nat → UInt8) (a n : Nat) : (readRange f a n).length = n := by
  induction n generalizing a with
  | zero => rfl
  | succ n ih => simp [readRange, ih]

theorem readRange_congr {f g : Nat → UInt8} (a n : Nat)
    (h : ∀ k, a ≤ k → k < a + n → f k = g k) : readRange f a n = readRange g a n := by
  induction n generalizing a with
  | zero => rfl
  | succ n ih =>
    simp only [readRange]
    rw [h a (Nat.le_refl a) (by omega), ih (a + 1) (fun k hk hk2 => h k (by omega) (by omega))]

theorem readRange_snoc (f : Nat → UInt8) (a n : Nat) :
    readRange f a (n + 1) = readRange f a n ++ [f (a + n)] := by
  induction n generalizing a with
  | zero => simp [readRange]
  | succ n ih =>
    rw [readRange, ih (a + 1), readRange]
    have harith : a + 1 + n = a + (n + 1) := by omega
    simp only [List.cons_append, harith]

theorem readRange_update_out {f : Nat → UInt8} {c : UInt8} {i : Nat} (a n : Nat)
    (h : i < a ∨ a + n ≤ i) :
    readRange (fun k => if k = i then c else f k) a n = readRange f a n :=
  readRange_congr a n fun k hk1 hk2 => by
    have hne : k ≠ i := by omega
    simp [hne]

theorem systemLogSize_pos : 0 < systemLogSize := by decide

theorem one_lt_systemLogSize : 1 < systemLogSize := by decide

/-- The invariant tying a `logBuffer` to the byte stream written into it:
the write index is the stream length modulo the capacity, the `full` flag
records whether the capacity was reached, and the retained bytes (in
chronological order) are the last 64 KiB of the stream. -/
def WriteInv (ws : List UInt8) (b : LogBuffer) : Prop :=
  b.i = ws.length % systemLogSize ∧
  (b.full = true ↔ systemLogSize ≤ ws.length) ∧
  b.chrono = lastN systemLogSize ws

theorem readRange_zero (f : Nat → UInt8) (a : Nat) : readRange f a 0 = [] := rfl

theorem readRange_one (f : Nat → UInt8) (a : Nat) : readRange f a 1 = [f a] := rfl

theorem readRange_eq_snoc (f : Nat → UInt8) (a : Nat) {n : Nat} (h : 0 < n) :
    readRange f a n = readRange f a (n - 1) ++ [f (a + (n - 1))] := by
  cases n with
  | zero => omega
  | succ n => simpa using readRange_snoc f a n

theorem readRange_eq_cons (f : Nat → UInt8) (a : Nat) {n : Nat} (h : 0 < n) :
    readRange f a n = f a :: readRange f (a + 1) (n - 1) := by
  cases n with
  | zero => omega
  | succ n => rfl

theorem writeByte_inv {ws : List UInt8} {b : LogBuffer} {c : UInt8}
    (h : WriteInv ws b) : WriteInv (ws ++ [c]) (b.writeByte c) := by
  obtain ⟨hi, hfull, hchrono⟩ := h
  have hCpos := systemLogSize_pos
  have hC1 := one_lt_systemLogSize
  rw [LogBuffer.chrono] at hchrono
  cases hb : b.full with
  | false =>
    -- not yet wrapped: the index equals the stream length, below the capacity
    rw [hb] at hchrono hfull
    have hlt : ws.length < systemLogSize := by
      rcases le_or_lt systemLogSize ws.length with hge | hlt
      · exact absurd (hfull.mpr hge) (by simp)
      · exact hlt
    have hieq : b.i = ws.length := by rw [hi, Nat.mod_eq_of_lt hlt]
    have hread : readRange b.buf 0 ws.length = ws := by
      have := hchrono
      rw [if_neg (by simp), hieq, lastN_of_le (Nat.le_of_lt hlt)] at this
      exact this
    have key : readRange (fun k => if k = b.i then c else b.buf k) 0 (ws.length + 1)
        = ws ++ [c] := by
      rw [readRange_snoc, readRange_update_out 0 ws.length (Or.inr (by omega)), hread,
        Nat.zero_add, hieq, if_pos rfl]
    rw [LogBuffer.writeByte]
    by_cases hw : b.i + 1 = systemLogSize
    · -- the byte lands on the last cell: index wraps to zero and `full` is set
      rw [if_pos hw]
      have hCeq : ws.length + 1 = systemLogSize := by omega
      have hlen : (ws ++ [c]).length = systemLogSize := by
        rw [List.length_append, List.length_cons, List.length_nil]
        exact hCeq
      refine ⟨by rw [hlen, Nat.mod_self], by rw [hlen]; simp, ?_⟩
      rw [LogBuffer.chrono, if_pos rfl]
      show readRange _ 0 (systemLogSize - 0) ++ readRange _ 0 0 = _
      rw [Nat.sub_zero, readRange_zero, List.append_nil, lastN_of_le (Nat.le_of_eq hlen),
        ← hCeq]
      exact key
    · rw [if_neg hw]
      have hlt2 : ws.length + 1 < systemLogSize := by omega
      have hlen : (ws ++ [c]).length = ws.length + 1 := by
        rw [List.length_append, List.length_cons, List.length_nil]
      refine ⟨by rw [hlen, Nat.mod_eq_of_lt hlt2, hieq], ?_, ?_⟩
      · rw [hlen]
        simp only [hb]
        constructor
        · intro hc
          exact absurd hc (by simp)
        · intro hc
          omega
      · rw [LogBuffer.chrono, if_neg (by simp [hb]), lastN_of_le (by rw [hlen]; omega)]
        show readRange _ 0 (b.i + 1) = _
        have key2 := key
        rw [← hieq] at key2
        exact key2
  | true =>
    -- already wrapped at least once
    rw [hb] at hchrono hfull
    have hge : systemLogSize ≤ ws.length := hfull.mp rfl
    have hilt : b.i < systemLogSize := by rw [hi]; exact Nat.mod_lt _ hCpos
    have hchr : readRange b.buf b.i (systemLogSize - b.i) ++ readRange b.buf 0 b.i
        = lastN systemLogSize ws := by
      have := hchrono
      rwa [if_pos rfl] at this
    have hlen : (ws ++ [c]).length = ws.length + 1 := by
      rw [List.length_append, List.length_cons, List.length_nil]
    rw [LogBuffer.writeByte]
    by_cases hw : b.i + 1 = systemLogSize
    · rw [if_pos hw]
      have hieq : b.i = systemLogSize - 1 := by omega
      have key : readRange (fun k => if k = b.i then c else b.buf k) 0 systemLogSize
          = (lastN systemLogSize ws).drop 1 ++ [c] := by
        rw [readRange_eq_snoc _ _ hCpos,
          readRange_update_out 0 (systemLogSize - 1) (Or.inr (by omega)),
          Nat.zero_add, ← hieq, if_pos rfl, ← hchr]
        have hone : systemLogSize - b.i = 1 := by omega
        rw [hone, readRange_one, List.singleton_append, List.drop_succ_cons,
          List.drop_zero, hieq]
      refine ⟨?_, by rw [hlen]; simp; omega, ?_⟩
      · have hmod : (ws.length + 1) % systemLogSize = 0 := by
          rw [Nat.add_mod, Nat.mod_eq_of_lt hC1, ← hi, hw, Nat.mod_self]
        rw [hlen, hmod]
      · rw [LogBuffer.chrono, if_pos rfl]
        show readRange _ 0 (systemLogSize - 0) ++ readRange _ 0 0 = _
        rw [Nat.sub_zero, readRange_zero, List.append_nil, key,
          lastN_snoc_of_ge c hCpos hge]
    · rw [if_neg hw]
      have hi1 : b.i + 1 < systemLogSize := by omega
      have key : readRange (fun k => if k = b.i then c else b.buf k) (b.i + 1)
            (systemLogSize - (b.i + 1))
          ++ readRange (fun k => if k = b.i then c else b.buf k) 0 (b.i + 1)
          = (lastN systemLogSize ws).drop 1 ++ [c] := by
        rw [readRange_update_out (b.i + 1) (systemLogSize - (b.i + 1)) (Or.inl (by omega)),
          readRange_snoc, readRange_update_out 0 b.i (Or.inr (by omega)),
          Nat.zero_add, if_pos rfl, ← List.append_assoc, ← hchr,
          readRange_eq_cons b.buf b.i (by omega), List.cons_append, List.drop_succ_cons,
          List.drop_zero, Nat.sub_sub]
      refine ⟨?_, by rw [hlen]; simp [hb]; omega, ?_⟩
      · have hmod : (ws.length + 1) % systemLogSize = b.i + 1 := by
          rw [Nat.add_mod, Nat.mod_eq_of_lt hC1, ← hi, Nat.mod_eq_of_lt hi1]
        rw [hlen, hmod]
      · rw [LogBuffer.chrono, if_pos hb]
        show readRange _ (b.i + 1) (systemLogSize - (b.i + 1))
          ++ readRange _ 0 (b.i + 1) = _
        rw [key, lastN_snoc_of_ge c hCpos hge]

theorem write_inv (ws : List UInt8) : WriteInv ws (LogBuffer.empty.write ws) := by
  induction ws using List.reverseRecOn with
  | nil =>
    have := systemLogSize_pos
    refine ⟨by simp [LogBuffer.empty, LogBuffer.write], ?_, ?_⟩
    · simp only [LogBuffer.write, List.foldl_nil, LogBuffer.empty, List.length_nil]
      constructor
      · intro hc
        exact absurd hc (by simp)
      · intro hc
        omega
    · simp [LogBuffer.empty, LogBuffer.write, LogBuffer.chrono, lastN, readRange]
  | append_singleton ws c ih =>
    have hstep : LogBuffer.empty.write (ws ++ [c])
        = (LogBuffer.empty.write ws).writeByte c := by
      simp [LogBuffer.write]
    rw [hstep]
    exact writeByte_inv ih

/-! ## Task output buffer (`TaskOutput`, runsit.go lines 145-169)

A bounded FIFO of output lines: `Add` pushes at the back and, when the
length exceeds `maxKeepLines` (5000), removes the front element. -/

/-- One captured output line (runsit.go `Line`).  The Go field `isPrefix`
(truncated overlong line) is called `truncated` here. -/
structure Line where
  t : Nat
  name : String
  data : String
  truncated : Bool
deriving DecidableEq

/-- `const maxKeepLines = 5000` in `TaskOutput.Add`. -/
def maxKeepLines : Nat := 5000

/-- `TaskOutput.Add`: `PushBack(l)`, then `Remove(Front())` if the length
exceeds the bound. -/
def TaskOutput.add (lines : List Line) (l : Line) : List Line :=
  let pushed := lines ++ [l]
  if maxKeepLines < pushed.length then pushed.drop 1 else pushed

/-! ## Task configuration and the spawn oracle

`jsonconfig` is an external collaborator (its sources are not part of the
supervision core); `Obj` records the results of the accessor calls that
`updateFromConfig` performs on a validated-or-not config object, plus the
outcomes of the OS calls made while spawning with this config.  Each
`PortSpec` is one entry of the `ports` object, in Go map iteration
order. -/

/-- A `ports` entry value: `float64` (bare port number), `string`
(host:port), or any other JSON type (rejected). -/
inductive PortValue where
  | num (v : Int)
  | str (s : String)
  | other
deriving DecidableEq

/-- One named port entry together with the outcomes of `net.Listen` and
`TCPListener.File` for it. -/
structure PortSpec where
  name : String
  value : PortValue
  listenOk : Bool
  fileOk : Bool
deriving DecidableEq

/-- Modelled from the spec: the config object contract (spec section 6) —
accessor results (`user`, `standardEnv`, `env`, `ports`, `binary`, `cwd`,
`args`), the result of `Validate`, and the outcomes of the spawn-time OS
calls (`os.Stat`, `StdoutPipe`, `StderrPipe`, `cmd.Start`) for this
config. -/
structure Obj where
  user : String
  standardEnv : Bool
  env : List (String × String)
  ports : List PortSpec
  binary : String
  cwd : String
  args : List String
  validateOk : Bool
  statOk : Bool
  stdoutPipeOk : Bool
  stderrPipeOk : Bool
  startOk : Bool
deriving DecidableEq

/-- Modelled from the spec: `os.Getenv("USER")`, the supervisor's own
user.  An arbitrary fixed value; no claim depends on it. -/
def curUser : String := "daemon"

/-- The effective user: the optional `user` field, defaulting to the
current user when empty. -/
def Obj.effUser (jc : Obj) : String := if jc.user = "" then curUser else jc.user

/-- The environment list built before the ports loop: `USER=<user>` when
`standardEnv` (default true), then the `env` map entries as `k=v`. -/
def Obj.baseEnv (jc : Obj) : List String :=
  (if jc.standardEnv then ["USER=" ++ jc.effUser] else [])
    ++ jc.env.map (fun kv => kv.1 ++ "=" ++ kv.2)

/-- The ports loop of `updateFromConfig` (runsit.go lines 300-327): for
each entry, reject non-number/non-string values, abort on listen or
descriptor-extraction failure, and otherwise append
`RUNSIT_PORTFD_<name>=<3+len(extraFiles)>` to the environment and the
extracted descriptor (identified here by its port name) to `extraFiles`.
`none` models the early `return` from `updateFromConfig`. -/
def setupPorts : List PortSpec → List String → List String →
    Option (List String × List String)
  | [], env, acc => some (env, acc)
  | p :: ps, env, acc =>
    match p.value with
    | PortValue.other => none
    | _ =>
      if p.listenOk = false then none
      else if p.fileOk = false then none
      else setupPorts ps
        (env ++ ["RUNSIT_PORTFD_" ++ p.name ++ "=" ++ toString (3 + acc.length)])
        (acc ++ [p.name])

/-! ## Task state and the control loop -/

/-- A spawned `TaskInstance`: its identity (Go compares instance pointers;
every instance allocated by the loop gets a fresh `id`), the config
snapshot it was spawned from, and the `cmd.Env` / `cmd.ExtraFiles` attached
to the child process. -/
structure Instance where
  id : Nat
  config : Obj
  env : List String
  extraFiles : List String
deriving DecidableEq

/-- The state owned by `Task.loop`'s goroutine: `config` (last valid
config), `running`, `failures` (oldest first).  `nextId` is the allocator
for instance identities (fresh pointer per `&TaskInstance{...}`), and
`kills` is a ghost log of the process ids signalled by
`in.cmd.Process.Kill()` in `stop` — it records the externally observable
kill side effect and never influences control flow. -/
structure TaskState where
  config : Option Obj
  running : Option Instance
  failures : List Nat
  nextId : Nat
  kills : List Nat
deriving DecidableEq

/-- A new `Task` before any message: no config, nothing running, no
failures (`NewTask`). -/
def initState : TaskState := ⟨none, none, [], 0, []⟩

/-- `Task.stop` (runsit.go lines 420-429): no-op when nothing is running,
otherwise kill the running instance's process and clear `running`. -/
def stop (s : TaskState) : TaskState :=
  match s.running with
  | none => s
  | some r => { s with running := none, kills := s.kills ++ [r.id] }

/-- `const keepFailures = 5` in `onTaskFinished`: drop the oldest entry
when the history is at capacity, then append. -/
def recordFailure (fs : List Nat) (i : Nat) : List Nat :=
  (if fs.length = 5 then fs.drop 1 else fs) ++ [i]

/-- How `cmd.Wait` ended: `nil` (clean exit), `*exec.ExitError`, or some
other error. -/
inductive ExitResult where
  | success
  | exitError (code : Int)
  | otherError (msg : String)
deriving DecidableEq

/-- A `waitMessage`: the exited instance (by identity) and the `cmd.Wait`
result. -/
structure WaitMsg where
  inst : Nat
  err : ExitResult
deriving DecidableEq

/-- A `TaskFile` handed to `update`, carrying the outcome of
`jsonconfig.ReadFile` on it (`none` = parse error). -/
structure TaskFile where
  parseResult : Option Obj
deriving DecidableEq

/-- `Task.updateFromConfig` (runsit.go lines 277-383): clear `config`, stop
any running instance, panic on a user mismatch (`none`), build the
environment, pre-open the ports (aborting on failure), validate (aborting
with `config` still nil), then retain the validated config, and abort on
stat / pipe / start failure; on success the new instance becomes
`running`. -/
def updateFromConfig (jc : Obj) (s : TaskState) : Option TaskState :=
  let s1 := stop { s with config := none }
  if jc.effUser ≠ curUser then none
  else
    match setupPorts jc.ports jc.baseEnv [] with
    | none => some s1
    | some (env, extraFiles) =>
      if jc.validateOk = false then some s1
      else if jc.statOk = false then some { s1 with config := some jc }
      else if jc.stdoutPipeOk = false then
        some { s1 with config := some jc, nextId := s1.nextId + 1 }
      else if jc.stderrPipeOk = false then
        some { s1 with config := some jc, nextId := s1.nextId + 1 }
      else if jc.startOk = false then
        some { s1 with config := some jc, nextId := s1.nextId + 1 }
      else
        some ⟨some jc, some ⟨s1.nextId, jc, env, extraFiles⟩,
          s1.failures, s1.nextId + 1, s1.kills⟩

/-- `Task.onTaskFinished` (runsit.go lines 241-262): clear `running` if the
exited instance is the running one, record it into `failures`, and restart
from `config` when one is held. -/
def onTaskFinished (m : WaitMsg) (s : TaskState) : Option TaskState :=
  let s1 := if s.running.any (fun r => r.id == m.inst) then { s with running := none } else s
  let s2 := { s1 with failures := recordFailure s1.failures m.inst }
  match s2.config with
  | none => some s2
  | some jc => updateFromConfig jc s2

/-- `Task.update` (runsit.go lines 265-274): clear `config`, read the file,
stop, bail out on a parse error, else spawn from the parsed config. -/
def update (tf : TaskFile) (s : TaskState) : Option TaskState :=
  let s1 := stop { s with config := none }
  match tf.parseResult with
  | none => some s1
  | some jc => updateFromConfig jc s1

/-- The mutating control messages of `Task.loop` (the three query messages
read state without changing it). -/
inductive Msg where
  | updateMsg (tf : TaskFile)
  | stopMsg
  | waitMsg (m : WaitMsg)
deriving DecidableEq

/-- One step of `Task.loop`: dispatch a control message (`none` = the loop
panicked). -/
def step (s : TaskState) : Msg → Option TaskState
  | Msg.updateMsg tf => update tf s
  | Msg.stopMsg => some (stop s)
  | Msg.waitMsg m => onTaskFinished m s

/-- Run a whole message sequence through the loop. -/
def run (s : TaskState) : List Msg → Option TaskState
  | [] => some s
  | m :: ms =>
    match step s m with
    | none => none
    | some s' => run s' ms

/-- The states a task's control loop can reach from its initial state. -/
inductive Reachable : TaskState → Prop where
  | init : Reachable initState
  | next {s s' : TaskState} {m : Msg} : Reachable s → step s m = some s' → Reachable s'

/-- The running instances as a list (the `running` pointer holds at most
one). -/
def TaskState.runningList (s : TaskState) : List Instance := s.running.toList

/-- A ports entry that passes the ports loop: a number or string value,
and successful listen and descriptor extraction. -/
def PortSpec.good (p : PortSpec) : Bool :=
  (match p.value with | PortValue.other => false | _ => true) && p.listenOk && p.fileOk

/-- All spawn-relevant oracle outcomes are favourable for this config. -/
def spawnOk (jc : Obj) : Bool :=
  (jc.effUser == curUser) && jc.ports.all PortSpec.good
    && jc.validateOk && jc.statOk && jc.stdoutPipeOk && jc.stderrPipeOk && jc.startOk

/-- Specification-side description of the environment entries the ports
loop appends: the `j`-th port (counting from `k` files already collected)
gets `RUNSIT_PORTFD_<name>=<3+k+j>`. -/
def portEnvs : List PortSpec → Nat → List String
  | [], _ => []
  | p :: ps, k => ("RUNSIT_PORTFD_" ++ p.name ++ "=" ++ toString (3 + k)) :: portEnvs ps (k + 1)

/-! ## Structural lemmas about the control-loop operations -/

@[simp] theorem stop_config (s : TaskState) : (stop s).config = s.config := by
  unfold stop; split <;> rfl

@[simp] theorem stop_failures (s : TaskState) : (stop s).failures = s.failures := by
  unfold stop; split <;> rfl

@[simp] theorem stop_nextId (s : TaskState) : (stop s).nextId = s.nextId := by
  unfold stop; split <;> rfl

@[simp] theorem stop_running (s : TaskState) : (stop s).running = none := by
  unfold stop
  split
  · next heq => exact heq
  · rfl

theorem stop_kills_none {s : TaskState} (h : s.running = none) : (stop s).kills = s.kills := by
  unfold stop; rw [h]

theorem stop_kills_some {s : TaskState} {r : Instance} (h : s.running = some r) :
    (stop s).kills = s.kills ++ [r.id] := by
  unfold stop; rw [h]

theorem setupPorts_some {ps : List PortSpec} :
    ∀ {env acc env2 files : List String}, setupPorts ps env acc = some (env2, files) →
      env2 = env ++ portEnvs ps acc.length ∧ files = acc ++ ps.map PortSpec.name := by
  induction ps with
  | nil =>
    intro env acc env2 files h
    simp only [setupPorts, Option.some.injEq, Prod.mk.injEq] at h
    simp [portEnvs, ← h.1, ← h.2]
  | cons p ps ih =>
    intro env acc env2 files h
    simp only [setupPorts] at h
    cases hv : p.value with
    | other => rw [hv] at h; exact absurd h (by simp)
    | num v =>
      rw [hv] at h
      by_cases hl : p.listenOk = false
      · rw [if_pos hl] at h; exact absurd h (by simp)
      · rw [if_neg hl] at h
        by_cases hf : p.fileOk = false
        · rw [if_pos hf] at h; exact absurd h (by simp)
        · rw [if_neg hf] at h
          obtain ⟨h1, h2⟩ := ih h
          constructor
          · rw [h1, List.append_assoc, List.length_append]
            simp [portEnvs]
          · rw [h2, List.append_assoc]
            simp
    | str sv =>
      rw [hv] at h
      by_cases hl : p.listenOk = false
      · rw [if_pos hl] at h; exact absurd h (by simp)
      · rw [if_neg hl] at h
        by_cases hf : p.fileOk = false
        · rw [if_pos hf] at h; exact absurd h (by simp)
        · rw [if_neg hf] at h
          obtain ⟨h1, h2⟩ := ih h
          constructor
          · rw [h1, List.append_assoc, List.length_append]
            simp [portEnvs]
          · rw [h2, List.append_assoc]
            simp

theorem setupPorts_of_good {ps : List PortSpec} (hall : ps.all PortSpec.good = true) :
    ∀ (env acc : List String),
      setupPorts ps env acc
        = some (env ++ portEnvs ps acc.length, acc ++ ps.map PortSpec.name) := by
  induction ps with
  | nil => intro env acc; simp [setupPorts, portEnvs]
  | cons p ps ih =>
    intro env acc
    rw [List.all_cons, Bool.and_eq_true] at hall
    obtain ⟨hp, hps⟩ := hall
    simp only [PortSpec.good, Bool.and_eq_true] at hp
    obtain ⟨⟨hv, hl⟩, hf⟩ := hp
    simp only [setupPorts]
    cases hvv : p.value with
    | other => rw [hvv] at hv; simp at hv
    | num v =>
      rw [if_neg (by rw [hl]; simp), if_neg (by rw [hf]; simp), ih hps]
      simp [portEnvs, List.append_assoc]
    | str sv =>
      rw [if_neg (by rw [hl]; simp), if_neg (by rw [hf]; simp), ih hps]
      simp [portEnvs, List.append_assoc]

theorem ufc_failures {jc : Obj} {s s' : TaskState}
    (h : updateFromConfig jc s = some s') : s'.failures = s.failures := by
  simp only [updateFromConfig] at h
  split at h
  · exact absurd h (by simp)
  · split at h
    · injection h with h
      subst h
      simp
    · split at h
      · injection h with h
        subst h
        simp
      · split at h
        · injection h with h
          subst h
          simp
        · split at h
          · injection h with h
            subst h
            simp
          · split at h
            · injection h with h
              subst h
              simp
            · split at h
              · injection h with h
                subst h
                simp
              · injection h with h
                subst h
                simp

theorem ufc_kills {jc : Obj} {s s' : TaskState}
    (h : updateFromConfig jc s = some s') :
    s'.kills = (stop { s with config := none }).kills := by
  simp only [updateFromConfig] at h
  split at h
  · exact absurd h (by simp)
  · split at h
    · injection h with h
      subst h
      rfl
    · split at h
      · injection h with h
        subst h
        rfl
      · split at h
        · injection h with h
          subst h
          rfl
        · split at h
          · injection h with h
            subst h
            rfl
          · split at h
            · injection h with h
              subst h
              rfl
            · split at h
              · injection h with h
                subst h
                rfl
              · injection h with h
                subst h
                rfl

theorem ufc_nextId_le {jc : Obj} {s s' : TaskState}
    (h : updateFromConfig jc s = some s') :
    s'.nextId = s.nextId ∨ s'.nextId = s.nextId + 1 := by
  simp only [updateFromConfig] at h
  split at h
  · exact absurd h (by simp)
  · split at h
    · injection h with h
      subst h
      simp
    · split at h
      · injection h with h
        subst h
        simp
      · split at h
        · injection h with h
          subst h
          simp
        · split at h
          · injection h with h
            subst h
            simp
          · split at h
            · injection h with h
              subst h
              simp
            · split at h
              · injection h with h
                subst h
                simp
              · injection h with h
                subst h
                simp

/-- If a spawn left something `running`, it took the full success path:
the instance is fresh (`id = s.nextId`), carries the spawn config, the
environment built by the ports loop, and the collected descriptors. -/
theorem ufc_running_char {jc : Obj} {s s' : TaskState} {inst : Instance}
    (h : updateFromConfig jc s = some s') (hr : s'.running = some inst) :
    inst = ⟨s.nextId, jc, jc.baseEnv ++ portEnvs jc.ports 0,
      jc.ports.map PortSpec.name⟩ := by
  simp only [updateFromConfig] at h
  split at h
  · exact absurd h (by simp)
  · split at h
    · injection h with h
      subst h
      simp at hr
    · next env files heq =>
      split at h
      · injection h with h
        subst h
        simp at hr
      · split at h
        · injection h with h
          subst h
          simp at hr
        · split at h
          · injection h with h
            subst h
            simp at hr
          · split at h
            · injection h with h
              subst h
              simp at hr
            · split at h
              · injection h with h
                subst h
                simp at hr
              · injection h with h
                subst h
                obtain ⟨h1, h2⟩ := setupPorts_some heq
                simp only [TaskState.running, Option.some.injEq] at hr
                rw [← hr, h1, h2]
                simp

/-- If a spawn cleared or failed, nothing is running afterwards; in every
outcome the spawn never leaves the pre-spawn instance running. -/
theorem ufc_running_none_or_fresh {jc : Obj} {s s' : TaskState}
    (h : updateFromConfig jc s = some s') :
    s'.running = none ∨ ∃ inst : Instance, s'.running = some inst ∧ inst.id = s.nextId := by
  cases hr : s'.running with
  | none => exact Or.inl rfl
  | some inst =>
    refine Or.inr ⟨inst, rfl, ?_⟩
    rw [ufc_running_char h hr]

/-- With a matching user and good ports, `updateFromConfig` reduces to the
validate / stat / pipes / start decision chain. -/
theorem ufc_unfold_ok {jc : Obj} (s : TaskState) (hu : jc.effUser = curUser)
    (hports : jc.ports.all PortSpec.good = true) :
    updateFromConfig jc s =
      (if jc.validateOk = false then some (stop { s with config := none })
       else if jc.statOk = false then
         some { stop { s with config := none } with config := some jc }
       else if jc.stdoutPipeOk = false then
         some { stop { s with config := none } with
                config := some jc, nextId := s.nextId + 1 }
       else if jc.stderrPipeOk = false then
         some { stop { s with config := none } with
                config := some jc, nextId := s.nextId + 1 }
       else if jc.startOk = false then
         some { stop { s with config := none } with
                config := some jc, nextId := s.nextId + 1 }
       else
         some ⟨some jc,
           some ⟨s.nextId, jc, jc.baseEnv ++ portEnvs jc.ports 0,
             jc.ports.map PortSpec.name⟩,
           s.failures, s.nextId + 1, (stop { s with config := none }).kills⟩) := by
  simp only [updateFromConfig]
  rw [if_neg (by simp [hu]), setupPorts_of_good hports]
  simp

/-- A fully favourable spawn: the result state retains the config and runs
a fresh instance with the ports environment and descriptor list. -/
theorem ufc_success {jc : Obj} (s : TaskState) (h : spawnOk jc = true) :
    updateFromConfig jc s = some ⟨some jc,
      some ⟨s.nextId, jc, jc.baseEnv ++ portEnvs jc.ports 0, jc.ports.map PortSpec.name⟩,
      s.failures, s.nextId + 1, (stop { s with config := none }).kills⟩ := by
  simp only [spawnOk, Bool.and_eq_true, beq_iff_eq] at h
  obtain ⟨⟨⟨⟨⟨⟨hu, hports⟩, hv⟩, hstat⟩, hout⟩, herr⟩, hstart⟩ := h
  rw [ufc_unfold_ok s hu hports, if_neg (by simp [hv]), if_neg (by simp [hstat]),
    if_neg (by simp [hout]), if_neg (by simp [herr]), if_neg (by simp [hstart])]

/-- `onTaskFinished` always records the exited instance into `failures`. -/
theorem otf_failures {m : WaitMsg} {s s' : TaskState}
    (h : onTaskFinished m s = some s') :
    s'.failures = recordFailure s.failures m.inst := by
  simp only [onTaskFinished] at h
  by_cases hc : s.running.any (fun r => r.id == m.inst) = true
  · rw [if_pos hc] at h
    split at h
    · injection h with h
      subst h
      rfl
    · exact ufc_failures h
  · rw [if_neg hc] at h
    split at h
    · injection h with h
      subst h
      rfl
    · exact ufc_failures h

/-- When no config is held, `onTaskFinished` only clears a matching
`running` and records the failure — no restart happens. -/
theorem otf_no_config {m : WaitMsg} {s : TaskState} (h : s.config = none) :
    onTaskFinished m s = some
      { s with running := if s.running.any (fun r => r.id == m.inst) then none else s.running,
               failures := recordFailure s.failures m.inst } := by
  simp only [onTaskFinished]
  by_cases hc : s.running.any (fun r => r.id == m.inst) = true
  · rw [if_pos hc, if_pos hc]
    split
    · rfl
    · next jc heq => rw [h] at heq; exact absurd heq (by simp)
  · rw [if_neg hc, if_neg hc]
    split
    · next heq => cases s; rfl
    · next jc heq => rw [h] at heq; exact absurd heq (by simp)

/-! ## Bounded-history lemmas -/

theorem recordFailure_eq_lastN {fs : List Nat} (i : Nat) (h : fs.length ≤ 5) :
    recordFailure fs i = lastN 5 (fs ++ [i]) := by
  have hlen : (fs ++ [i]).length = fs.length + 1 := by
    rw [List.length_append, List.length_cons, List.length_nil]
  unfold recordFailure
  by_cases h5 : fs.length = 5
  · rw [if_pos h5]
    unfold lastN
    rw [hlen, h5, List.drop_append_of_le_length (by omega)]
  · have hle : (fs ++ [i]).length ≤ 5 := by omega
    rw [if_neg h5, lastN_of_le hle]

theorem recordFailure_length_le {fs : List Nat} (i : Nat) (h : fs.length ≤ 5) :
    (recordFailure fs i).length ≤ 5 := by
  rw [recordFailure_eq_lastN i h]
  exact lastN_length_le 5 _

theorem add_eq_lastN {b : List Line} (l : Line) (h : b.length ≤ maxKeepLines) :
    TaskOutput.add b l = lastN maxKeepLines (b ++ [l]) := by
  have hlen : (b ++ [l]).length = b.length + 1 := by
    rw [List.length_append, List.length_cons, List.length_nil]
  simp only [TaskOutput.add]
  by_cases hm : b.length = maxKeepLines
  · have hgt : maxKeepLines < (b ++ [l]).length := by omega
    rw [if_pos hgt]
    unfold lastN
    have harg : (b ++ [l]).length - maxKeepLines = 1 := by omega
    rw [harg]
  · have hle : (b ++ [l]).length ≤ maxKeepLines := by omega
    rw [if_neg (by omega), lastN_of_le hle]

/-- The failure history stays within its bound at every reachable state. -/
theorem reachable_failures_le {s : TaskState} (h : Reachable s) : s.failures.length ≤ 5 := by
  induction h with
  | init => simp [initState]
  | next hr hstep ih =>
    next s s' m =>
    cases m with
    | updateMsg tf =>
      simp only [step, update] at hstep
      split at hstep
      · injection hstep with hstep
        subst hstep
        simpa using ih
      · have := ufc_failures hstep
        rw [this]
        simpa using ih
    | stopMsg =>
      simp only [step] at hstep
      injection hstep with hstep
      subst hstep
      simpa using ih
    | waitMsg m =>
      have := otf_failures hstep
      rw [this]
      exact recordFailure_length_le _ ih

/-- Processing a stream of exit reports with no config held just folds the
exited instances into the failure history. -/
theorem run_waits (ids : List Nat) : ∀ {s : TaskState}, s.config = none →
    ∃ s', run s (ids.map fun i => Msg.waitMsg ⟨i, ExitResult.success⟩) = some s' ∧
      s'.config = none ∧ s'.failures = List.foldl recordFailure s.failures ids := by
  induction ids with
  | nil =>
    intro s h
    exact ⟨s, rfl, h, rfl⟩
  | cons i ids ih =>
    intro s h
    have hst := otf_no_config (m := ⟨i, ExitResult.success⟩) h
    simp only [List.map_cons, run, step, hst]
    obtain ⟨s', h1, h2, h3⟩ := ih (s := { s with
      running := if s.running.any (fun r => r.id == (⟨i, ExitResult.success⟩ : WaitMsg).inst)
        then none else s.running,
      failures := recordFailure s.failures (⟨i, ExitResult.success⟩ : WaitMsg).inst }) (by simp [h])
    refine ⟨s', h1, h2, ?_⟩
    rw [h3]
    rfl

/-- `stop` on a task with nothing running changes nothing. -/
theorem stop_noop {s : TaskState} (h : s.running = none) : stop s = s := by
  unfold stop
  rw [h]

/-! ## Sample configurations for concrete witnesses -/

/-- A config whose spawn succeeds end to end, with two named ports. -/
def okJc : Obj :=
  ⟨"", true, [("FOO", "bar")],
    [⟨"web", PortValue.num 80, true, true⟩, ⟨"db", PortValue.str "h:1", true, true⟩],
    "/bin/srv", "", [], true, true, true, true, true⟩

/-- `okJc` with failing jsonconfig validation. -/
def badValidateJc : Obj := { okJc with validateOk := false }

/-- `okJc` whose binary fails to stat. -/
def badStatJc : Obj := { okJc with statOk := false }

/-- The instance spawned from `okJc` by a fresh task. -/
def inst0 : Instance :=
  ⟨0, okJc, okJc.baseEnv ++ portEnvs okJc.ports 0, okJc.ports.map PortSpec.name⟩

/-- A fresh task right after spawning `okJc`. -/
def spawnedState : TaskState := ⟨some okJc, some inst0, [], 1, []⟩

/-- A sample output line. -/
def sampleLine : Line := ⟨0, "stdout", "x", false⟩

/-! ## The claims -/

/-- C5: `TaskOutput.Add` keeps the buffer within 5000 lines for every
append sequence, and appending 5001 lines leaves exactly the most recent
5000 in append order (the oldest evicted first). -/
theorem c5_output_bound :
    (∀ ls : List Line, (List.foldl TaskOutput.add [] ls).length ≤ maxKeepLines) ∧
    (∀ ls : List Line, ls.length = maxKeepLines + 1 →
      List.foldl TaskOutput.add [] ls = ls.drop 1) := by
  have hfold : ∀ ls : List Line, List.foldl TaskOutput.add [] ls = lastN maxKeepLines ls := by
    intro ls
    have h := foldl_lastN (c := maxKeepLines) (f := TaskOutput.add)
      (fun b x hb => add_eq_lastN x hb) ls [] (by simp)
    simpa using h
  constructor
  · intro ls
    rw [hfold]
    exact lastN_length_le _ _
  · intro ls h
    rw [hfold]
    unfold lastN
    rw [h, show maxKeepLines + 1 - maxKeepLines = 1 from by omega]

/-- Witness for C5 at a concrete 5001-line append sequence. -/
theorem c5_output_bound_w :
    (List.replicate (maxKeepLines + 1) sampleLine).length = maxKeepLines + 1 ∧
    List.foldl TaskOutput.add [] (List.replicate (maxKeepLines + 1) sampleLine)
      = (List.replicate (maxKeepLines + 1) sampleLine).drop 1 :=
  ⟨by simp, c5_output_bound.2 _ (by simp)⟩

/-- C7: a Stop with no running instance is a no-op (the whole state,
`failures` and `config` included, is unchanged), and `stop` is
idempotent. -/
theorem c7_stop_noop :
    (∀ s : TaskState, s.running = none → stop s = s) ∧
    (∀ s : TaskState, stop (stop s) = stop s) :=
  ⟨fun _ h => stop_noop h, fun s => stop_noop (stop_running s)⟩

/-- Witness for C7 at the initial state. -/
theorem c7_stop_noop_w : stop initState = initState ∧ stop (stop initState) = stop initState :=
  ⟨c7_stop_noop.1 initState rfl, c7_stop_noop.2 initState⟩

/-- C9: exit handling does not inspect the `Wait` result: the handler's
effect on the task state is the same for a clean exit as for any failure,
and the exited instance always ends up as the newest failure-history
entry. -/
theorem c9_record_unconditional :
    (∀ (i : Nat) (e e' : ExitResult) (s : TaskState),
      onTaskFinished ⟨i, e⟩ s = onTaskFinished ⟨i, e'⟩ s) ∧
    (∀ (m : WaitMsg) (s s' : TaskState), onTaskFinished m s = some s' →
      s'.failures.getLast? = some m.inst) := by
  constructor
  · intro i e e' s
    rfl
  · intro m s s' h
    rw [otf_failures h]
    unfold recordFailure
    exact List.getLast?_concat _

/-- Witness for C9: a clean exit and an exit-error report produce the same
state, and the exited instance is recorded. -/
theorem c9_record_unconditional_w :
    onTaskFinished ⟨7, ExitResult.success⟩ initState
      = onTaskFinished ⟨7, ExitResult.exitError 1⟩ initState ∧
    (⟨none, none, [7], 0, []⟩ : TaskState).failures.getLast? = some 7 :=
  ⟨c9_record_unconditional.1 7 ExitResult.success (ExitResult.exitError 1) initState,
    c9_record_unconditional.2 ⟨7, ExitResult.success⟩ initState ⟨none, none, [7], 0, []⟩ rfl⟩

/-- C4: the failure history never exceeds 5 entries at any reachable
state, and after more than 5 exit reports the history holds exactly the
last 5 exited instances, oldest first. -/
theorem c4_failures_bound :
    (∀ s : TaskState, Reachable s → s.failures.length ≤ 5) ∧
    (∀ (ids : List Nat) (s s' : TaskState), s.config = none → s.failures = [] →
      run s (ids.map fun i => Msg.waitMsg ⟨i, ExitResult.success⟩) = some s' →
      5 < ids.length → s'.failures = lastN 5 ids) := by
  constructor
  · intro s h
    exact reachable_failures_le h
  · intro ids s s' hc hf hrun _hlen
    obtain ⟨s'', h1, _h2, h3⟩ := run_waits ids hc
    rw [hrun] at h1
    injection h1 with h1
    subst h1
    rw [h3, hf]
    have h := foldl_lastN (c := 5) (f := recordFailure)
      (fun b x hb => recordFailure_eq_lastN x hb) ids [] (by simp)
    rw [h]
    simp

/-- Witness for C4: seven exit reports leave exactly the last five. -/
theorem c4_failures_bound_w :
    initState.failures.length ≤ 5 ∧
    run initState ([1, 2, 3, 4, 5, 6, 7].map fun i => Msg.waitMsg ⟨i, ExitResult.success⟩)
      = some ⟨none, none, [3, 4, 5, 6, 7], 0, []⟩ ∧
    (⟨none, none, [3, 4, 5, 6, 7], 0, []⟩ : TaskState).failures = lastN 5 [1, 2, 3, 4, 5, 6, 7] :=
  ⟨c4_failures_bound.1 initState Reachable.init, rfl,
    c4_failures_bound.2 [1, 2, 3, 4, 5, 6, 7] initState ⟨none, none, [3, 4, 5, 6, 7], 0, []⟩
      rfl rfl rfl (by decide)⟩

/-- C1: every reachable state holds at most one running instance, and
every spawn path stops (kills) the previously running instance before any
new instance — which is always fresh — can become `running`. -/
theorem c1_at_most_one_running :
    (∀ s : TaskState, Reachable s → s.runningList.length ≤ 1) ∧
    (∀ (jc : Obj) (s s' : TaskState) (r : Instance), s.running = some r →
      updateFromConfig jc s = some s' →
      s'.kills = s.kills ++ [r.id] ∧
      ∀ inst : Instance, s'.running = some inst → inst.id = s.nextId) := by
  constructor
  · intro s _h
    unfold TaskState.runningList
    cases s.running <;> simp
  · intro jc s s' r hr h
    constructor
    · rw [ufc_kills h, stop_kills_some (s := { s with config := none }) (r := r) hr]
    · intro inst hi
      rw [ufc_running_char h hi]

/-- Witness for C1: the initial state, and a re-spawn over a running
instance killing it and installing a fresh instance. -/
theorem c1_at_most_one_running_w :
    initState.runningList.length ≤ 1 ∧
    (⟨some okJc, some ⟨1, okJc, okJc.baseEnv ++ portEnvs okJc.ports 0,
        okJc.ports.map PortSpec.name⟩, [], 2, [0]⟩ : TaskState).kills
      = spawnedState.kills ++ [inst0.id] := by
  refine ⟨c1_at_most_one_running.1 initState Reachable.init, ?_⟩
  exact (c1_at_most_one_running.2 okJc spawnedState
    ⟨some okJc, some ⟨1, okJc, okJc.baseEnv ++ portEnvs okJc.ports 0,
      okJc.ports.map PortSpec.name⟩, [], 2, [0]⟩ inst0 rfl (by rfl)).1

/-- C2: exit handling appends the exited instance to the bounded failure
history; with no config held it only clears a matching `running`; with a
valid config held whose spawn succeeds, the handler for the running
instance's own exit records exactly one new failure entry and re-spawns a
fresh running instance, with no kill and no external Update. -/
theorem c2_exit_handling :
    (∀ (m : WaitMsg) (s s' : TaskState), onTaskFinished m s = some s' →
      s'.failures = recordFailure s.failures m.inst) ∧
    (∀ (m : WaitMsg) (s : TaskState), s.config = none →
      onTaskFinished m s = some { s with
        running := if s.running.any (fun r => r.id == m.inst) then none else s.running,
        failures := recordFailure s.failures m.inst }) ∧
    (∀ (m : WaitMsg) (s : TaskState) (jc : Obj) (r : Instance),
      s.config = some jc → spawnOk jc = true → s.running = some r → r.id = m.inst →
      onTaskFinished m s = some ⟨some jc,
        some ⟨s.nextId, jc, jc.baseEnv ++ portEnvs jc.ports 0, jc.ports.map PortSpec.name⟩,
        recordFailure s.failures m.inst, s.nextId + 1, s.kills⟩) := by
  refine ⟨fun m s s' h => otf_failures h, fun m s h => otf_no_config h, ?_⟩
  intro m s jc r hc hok hr hid
  simp only [onTaskFinished]
  have hcond : s.running.any (fun x => x.id == m.inst) = true := by
    rw [hr]
    show (r.id == m.inst) = true
    simp [hid]
  rw [if_pos hcond]
  split
  · next heq =>
    rw [hc] at heq
    exact absurd heq (by simp)
  · next jc' heq =>
    rw [hc] at heq
    injection heq with heq
    subst heq
    refine (ufc_success _ hok).trans ?_
    rfl

/-- Witness for C2: the spawned instance exits with a non-zero status and
is restarted. -/
theorem c2_exit_handling_w :
    onTaskFinished ⟨0, ExitResult.exitError 1⟩ spawnedState = some ⟨some okJc,
      some ⟨1, okJc, okJc.baseEnv ++ portEnvs okJc.ports 0, okJc.ports.map PortSpec.name⟩,
      [0], 2, []⟩ :=
  c2_exit_handling.2.2 ⟨0, ExitResult.exitError 1⟩ spawnedState okJc inst0
    rfl (by decide) rfl rfl

/-- C3: a parse failure in `update` and a validation failure in
`updateFromConfig` leave `config` nil, while a stat / pipe / start failure
after successful validation retains the validated config with nothing
running. -/
theorem c3_config_retention :
    (∀ (tf : TaskFile) (s : TaskState), tf.parseResult = none →
      update tf s = some (stop { s with config := none }) ∧
      (stop { s with config := none }).config = none) ∧
    (∀ (jc : Obj) (s : TaskState), jc.effUser = curUser →
      jc.ports.all PortSpec.good = true → jc.validateOk = false →
      updateFromConfig jc s = some (stop { s with config := none }) ∧
      (stop { s with config := none }).config = none) ∧
    (∀ (jc : Obj) (s : TaskState), jc.effUser = curUser →
      jc.ports.all PortSpec.good = true → jc.validateOk = true →
      (jc.statOk && jc.stdoutPipeOk && jc.stderrPipeOk && jc.startOk) = false →
      ∃ s', updateFromConfig jc s = some s' ∧ s'.config = some jc ∧ s'.running = none) := by
  refine ⟨?_, ?_, ?_⟩
  · intro tf s hp
    refine ⟨?_, by simp⟩
    simp only [update]
    rw [hp]
  · intro jc s hu hports hv
    refine ⟨?_, by simp⟩
    rw [ufc_unfold_ok s hu hports, if_pos hv]
  · intro jc s hu hports hv hfail
    rw [ufc_unfold_ok s hu hports, if_neg (by simp [hv])]
    by_cases hstat : jc.statOk = false
    · rw [if_pos hstat]
      exact ⟨_, rfl, rfl, by simp⟩
    · rw [if_neg hstat]
      by_cases hout : jc.stdoutPipeOk = false
      · rw [if_pos hout]
        exact ⟨_, rfl, rfl, by simp⟩
      · rw [if_neg hout]
        by_cases herr : jc.stderrPipeOk = false
        · rw [if_pos herr]
          exact ⟨_, rfl, rfl, by simp⟩
        · rw [if_neg herr]
          by_cases hstart : jc.startOk = false
          · rw [if_pos hstart]
            exact ⟨_, rfl, rfl, by simp⟩
          · rw [Bool.not_eq_false] at hstat hout herr hstart
            rw [hstat, hout, herr, hstart] at hfail
            exact absurd hfail (by simp)

/-- Witness for C3: a parse failure, a validation failure, and a stat
failure at concrete configs. -/
theorem c3_config_retention_w :
    update ⟨none⟩ initState = some initState ∧
    updateFromConfig badValidateJc initState = some initState ∧
    updateFromConfig badStatJc initState = some ⟨some badStatJc, none, [], 0, []⟩ := by
  have h3 := c3_config_retention.2.2 badStatJc initState rfl (by decide) rfl (by decide)
  exact ⟨(c3_config_retention.1 ⟨none⟩ initState rfl).1,
    (c3_config_retention.2.1 badValidateJc initState rfl (by decide) rfl).1, rfl⟩

/-- Each port's environment entry is present, with the descriptor number
`3 + k + i` for the `i`-th port after `k` already-collected files. -/
theorem portEnvs_mem : ∀ (ps : List PortSpec) (k i : Nat) (h : i < ps.length),
    ("RUNSIT_PORTFD_" ++ (ps.get ⟨i, h⟩).name ++ "=" ++ toString (3 + (k + i)))
      ∈ portEnvs ps k := by
  intro ps
  induction ps with
  | nil =>
    intro k i h
    exact absurd h (by simp)
  | cons p ps ih =>
    intro k i h
    cases i with
    | zero =>
      simp only [portEnvs, List.get]
      left
    | succ i =>
      have hm := ih (k + 1) i (by simpa using h)
      rw [show k + 1 + i = k + (i + 1) from by omega] at hm
      simp only [portEnvs, List.get]
      right
      exact hm

/-- C6: writing the log ring past its 64 KiB capacity overwrites the
oldest bytes (the retained bytes are exactly the last 64 KiB of the
stream, in order); `String` on a never-wrapped buffer is exactly the bytes
written, and on a wrapped buffer it is the ellipsis marker followed by the
retained bytes with the first (possibly partial) line removed through its
newline. -/
theorem c6_log_ring : ∀ ws : List UInt8,
    (ws.length < systemLogSize → (LogBuffer.empty.write ws).string = ws) ∧
    (systemLogSize ≤ ws.length →
      (LogBuffer.empty.write ws).chrono = lastN systemLogSize ws ∧
      (LogBuffer.empty.write ws).string
        = ellipsisNl ++ dropFirstLine (lastN systemLogSize ws)) := by
  intro ws
  obtain ⟨hi, hfull, hchrono⟩ := write_inv ws
  constructor
  · intro hlt
    have hnf : (LogBuffer.empty.write ws).full = false := by
      cases hb : (LogBuffer.empty.write ws).full with
      | false => rfl
      | true => exact absurd (hfull.mp hb) (by omega)
    unfold LogBuffer.string
    rw [if_neg (by rw [hnf]; simp)]
    have h := hchrono
    unfold LogBuffer.chrono at h
    rw [if_neg (by rw [hnf]; simp)] at h
    rw [h, lastN_of_le (Nat.le_of_lt hlt)]
  · intro hge
    have hf : (LogBuffer.empty.write ws).full = true := hfull.mpr hge
    refine ⟨hchrono, ?_⟩
    unfold LogBuffer.string
    rw [if_pos hf]
    have h := hchrono
    unfold LogBuffer.chrono at h
    rw [if_pos hf] at h
    rw [h]

/-- A 65538-byte stream: two bytes of a line, a newline, then 65535 `B`
bytes — two bytes over the ring capacity. -/
def wrapStream : List UInt8 := 65 :: 65 :: 10 :: List.replicate 65535 66

/-- Witness for C6: a short write reads back verbatim; a write two bytes
past capacity wraps, loses the two oldest bytes, drops the first retained
(partial) line through its newline, and gains the ellipsis marker. -/
theorem c6_log_ring_w :
    (LogBuffer.empty.write [104, 105, 10]).string = [104, 105, 10] ∧
    (LogBuffer.empty.write wrapStream).string = ellipsisNl ++ List.replicate 65535 66 := by
  constructor
  · exact (c6_log_ring [104, 105, 10]).1 (by decide)
  · have hlen : wrapStream.length = 65538 := by
      rw [wrapStream]
      rw [List.length_cons, List.length_cons, List.length_cons, List.length_replicate]
    have h := (c6_log_ring wrapStream).2 (by rw [hlen]; decide)
    rw [h.2]
    have h2 : wrapStream.length - systemLogSize = 2 := by rw [hlen]; decide
    have h1 : lastN systemLogSize wrapStream = 10 :: List.replicate 65535 66 := by
      unfold lastN
      rw [h2]
      rfl
    rw [h1]
    rfl

/-- C8: a successful spawn attaches the collected descriptor list to the
child in port order, and for every port the child environment holds
`RUNSIT_PORTFD_<name>=<3+i>` where `i` is the port's index in that list —
descriptors are numbered consecutively from 3, in port-iteration order. -/
theorem c8_port_env :
    ∀ (jc : Obj) (s s' : TaskState) (inst : Instance),
      updateFromConfig jc s = some s' → s'.running = some inst →
      inst.extraFiles = jc.ports.map PortSpec.name ∧
      inst.env = jc.baseEnv ++ portEnvs jc.ports 0 ∧
      ∀ (i : Nat) (h : i < jc.ports.length),
        ("RUNSIT_PORTFD_" ++ (jc.ports.get ⟨i, h⟩).name ++ "=" ++ toString (3 + i))
          ∈ inst.env := by
  intro jc s s' inst h hr
  have hchar := ufc_running_char h hr
  refine ⟨by rw [hchar], by rw [hchar], ?_⟩
  intro i hlt
  have hm := portEnvs_mem jc.ports 0 i hlt
  rw [Nat.zero_add] at hm
  rw [hchar]
  exact List.mem_append_right _ hm

/-- Witness for C8 at `okJc`: two ports get descriptors 3 and 4 and the
descriptor list is attached in port order. -/
theorem c8_port_env_w :
    inst0.extraFiles = ["web", "db"] ∧
    ("RUNSIT_PORTFD_" ++ "web" ++ "=" ++ toString (3 + 0)) ∈ inst0.env ∧
    ("RUNSIT_PORTFD_" ++ "db" ++ "=" ++ toString (3 + 1)) ∈ inst0.env := by
  have h := c8_port_env okJc initState spawnedState inst0 rfl rfl
  exact ⟨h.1, h.2.2 0 (by decide), h.2.2 1 (by decide)⟩

/-- C10: an exit report for a superseded instance, arriving while a valid
config is held, leaves the identity check without effect but still
triggers the restart procedure, which kills the healthy running instance
and replaces it with a fresh one. -/
theorem c10_stale_exit :
    ∀ (m : WaitMsg) (s : TaskState) (jc : Obj) (r : Instance),
      s.running = some r → m.inst ≠ r.id → s.config = some jc → spawnOk jc = true →
      r.id < s.nextId →
      onTaskFinished m s = some ⟨some jc,
        some ⟨s.nextId, jc, jc.baseEnv ++ portEnvs jc.ports 0, jc.ports.map PortSpec.name⟩,
        recordFailure s.failures m.inst, s.nextId + 1, s.kills ++ [r.id]⟩ ∧
      s.nextId ≠ r.id := by
  intro m s jc r hr hne hc hok hid
  refine ⟨?_, by omega⟩
  simp only [onTaskFinished]
  have hcond : s.running.any (fun x => x.id == m.inst) = false := by
    rw [hr]
    show (r.id == m.inst) = false
    simp
    exact fun hh => hne hh.symm
  rw [if_neg (by rw [hcond]; simp)]
  split
  · next heq =>
    rw [hc] at heq
    exact absurd heq (by simp)
  · next jc' heq =>
    rw [hc] at heq
    injection heq with heq
    subst heq
    refine (ufc_success _ hok).trans ?_
    rw [stop_kills_some
      (s := { ({ s with failures := recordFailure s.failures m.inst } : TaskState)
        with config := none }) (r := r) hr]

/-- Witness for C10: a stale exit report for instance 5 kills the healthy
instance 0 and spawns a replacement with a fresh identity. -/
theorem c10_stale_exit_w :
    onTaskFinished ⟨5, ExitResult.success⟩ spawnedState = some ⟨some okJc,
      some ⟨1, okJc, okJc.baseEnv ++ portEnvs okJc.ports 0, okJc.ports.map PortSpec.name⟩,
      [5], 2, [0]⟩ ∧ (1 : Nat) ≠ 0 :=
  c10_stale_exit ⟨5, ExitResult.success⟩ spawnedState okJc inst0 rfl (by decide) rfl
    (by decide) (by decide)

end Runsit
